import Mathlib

/-!
Verification of the expense-report core (aggregation and reimbursement
allocation) of `main.py`.  The computational core of the program lives in
the generated page's script (functions `build_main_table`,
`show_subtype_detail` and `compute_reimbursements_and_render`); the
definitions below are a shallow embedding of those functions, with
amounts embedded as rationals.
-/

namespace Aeide

/-- One ledger row, as produced by `compute_aggregates` in `main.py`
(the `records` list: fields `spent_type`, `spent_subtype`, `spent_name`,
`amount`, `member`, `is_bill`, `spent_id`). -/
structure ExpenseRecord where
  spent_type : String
  spent_subtype : String
  spent_name : String
  amount : ℚ
  member : String
  is_bill : String
  spent_id : String
deriving DecidableEq, Repr

/-- The ANTE granularity radio button: `type`, `subtype` or `name`
(`input[name="ante_gran"]` in the page). -/
inductive Gran where
  | type
  | subtype
  | name
deriving DecidableEq, Repr

/-- The key of a record at a granularity, as read in
`compute_reimbursements_and_render`:
`(gran==='type') ? r.spent_type : (gran==='subtype' ? r.spent_subtype : r.spent_name)`. -/
def keyOf (g : Gran) (r : ExpenseRecord) : String :=
  match g with
  | .type => r.spent_type
  | .subtype => r.spent_subtype
  | .name => r.spent_name

/-- `isAnte[idx] = selected.has(key)`: a record is ANTE iff its key at the
chosen granularity belongs to the selection set. -/
def isAnte (g : Gran) (sel : List String) (r : ExpenseRecord) : Bool :=
  sel.contains (keyOf g r)

/-- Sum of the `amount` field over a list of records. -/
def sumAmounts (l : List ExpenseRecord) : ℚ :=
  (l.map ExpenseRecord.amount).sum

/-- The records classified ANTE. -/
def anteRecs (g : Gran) (sel : List String) (rs : List ExpenseRecord) :
    List ExpenseRecord :=
  rs.filter (fun r => isAnte g sel r)

/-- The records classified POST (the `else` branch of the partition loop). -/
def postRecs (g : Gran) (sel : List String) (rs : List ExpenseRecord) :
    List ExpenseRecord :=
  rs.filter (fun r => !(isAnte g sel r))

/-- The key list of a JavaScript object built by repeated
`obj[k] = (obj[k]||0) + ...`: insertion order, first occurrence kept. -/
def jsKeys (l : List String) : List String :=
  l.foldl (fun acc k => if k ∈ acc then acc else acc ++ [k]) []

/-- All inputs of one invocation of `compute_reimbursements_and_render`:
the record list, the `MEMBERS` list, the granularity, the ANTE selection
set, the raw weight inputs and `SUM_GAIN`. -/
structure AllocIn where
  records : List ExpenseRecord
  members : List String
  gran : Gran
  sel : List String
  rawW : String → ℚ
  gain : ℚ

namespace AllocIn

/-- `ante_totals_by_member[m]`: sum of ANTE amounts of member `m`. -/
def anteByMember (A : AllocIn) (m : String) : ℚ :=
  sumAmounts ((anteRecs A.gran A.sel A.records).filter (fun r => r.member == m))

/-- `post_totals_by_member[m]`: sum of POST amounts of member `m`. -/
def postByMember (A : AllocIn) (m : String) : ℚ :=
  sumAmounts ((postRecs A.gran A.sel A.records).filter (fun r => r.member == m))

/-- `total_ante`: sum of all ANTE amounts, regardless of member. -/
def total_ante (A : AllocIn) : ℚ :=
  sumAmounts (anteRecs A.gran A.sel A.records)

/-- `total_post`: sum of all POST amounts. -/
def total_post (A : AllocIn) : ℚ :=
  sumAmounts (postRecs A.gran A.sel A.records)

/-- The keys of the `ante_totals_by_member` object: every member of
`MEMBERS` (initialised to 0), then every member met in an ANTE record. -/
def anteKeys (A : AllocIn) : List String :=
  jsKeys (A.members ++ (anteRecs A.gran A.sel A.records).map ExpenseRecord.member)

/-- The keys of the `post_totals_by_member` object. -/
def postKeys (A : AllocIn) : List String :=
  jsKeys (A.members ++ (postRecs A.gran A.sel A.records).map ExpenseRecord.member)

/-- `total_ante_contrib = Object.values(ante_totals_by_member).reduce((a,b)=>a+b,0)`. -/
def total_ante_contrib (A : AllocIn) : ℚ :=
  ((A.anteKeys).map A.anteByMember).sum

/-- The sum of the values of `post_totals_by_member` (used in the
partition-totality property). -/
def total_post_contrib (A : AllocIn) : ℚ :=
  ((A.postKeys).map A.postByMember).sum

/-- `wsum`: the sum of the raw weight inputs over `MEMBERS`. -/
def wsum (A : AllocIn) : ℚ :=
  (A.members.map A.rawW).sum

/-- The weights actually used:
`if (wsum<=0) MEMBERS.forEach(m=> weights[m]=1.0/MEMBERS.length);
 else for (let k in weights) weights[k]=weights[k]/wsum;`. -/
def usedWeights (A : AllocIn) (m : String) : ℚ :=
  if A.wsum ≤ 0 then 1 / (A.members.length : ℚ) else A.rawW m / A.wsum

/-- `covered_ante = Math.min(SUM_GAIN, total_ante)`. -/
def covered_ante (A : AllocIn) : ℚ :=
  min A.gain A.total_ante

/-- `remaining_gain = Math.max(SUM_GAIN - covered_ante, 0)`. -/
def remaining_gain (A : AllocIn) : ℚ :=
  max (A.gain - A.covered_ante) 0

/-- `allocated_ante[m]`: zero-initialised, and set to
`covered_ante * (ante_totals_by_member[m] / total_ante_contrib)` only
when `total_ante_contrib > 0`. -/
def allocated_ante (A : AllocIn) (m : String) : ℚ :=
  if 0 < A.total_ante_contrib then
    A.covered_ante * (A.anteByMember m / A.total_ante_contrib)
  else 0

/-- `part_after_ante[m] = remaining_gain * (weights[m] || 0)`. -/
def part_after_ante (A : AllocIn) (m : String) : ℚ :=
  A.remaining_gain * A.usedWeights m

end AllocIn

/-- The per-member entry of the `results` object built at the end of
`compute_reimbursements_and_render` (these five fields and no other). -/
structure MemberResult where
  total_ante : ℚ
  total_post : ℚ
  total_ante_post : ℚ
  part_after_ante_split : ℚ
  final_after_post : ℚ
deriving DecidableEq, Repr

/-- `results[m]` for a member `m`. -/
def AllocIn.resultFor (A : AllocIn) (m : String) : MemberResult :=
  { total_ante := A.anteByMember m
    total_post := A.postByMember m
    total_ante_post := A.anteByMember m + A.postByMember m
    part_after_ante_split := A.part_after_ante m
    final_after_post := A.part_after_ante m - A.postByMember m }

end Aeide

namespace Aeide

/-! ### Basic list lemmas used by the claims -/

theorem sumAmounts_append (l₁ l₂ : List ExpenseRecord) :
    sumAmounts (l₁ ++ l₂) = sumAmounts l₁ + sumAmounts l₂ := by
  simp [sumAmounts]

theorem sum_map_mul_right_q {α : Type} (l : List α) (f : α → ℚ) (c : ℚ) :
    (l.map fun x => f x * c).sum = (l.map f).sum * c := by
  induction l with
  | nil => simp
  | cons a l ih => simp [ih, add_mul]

theorem sum_map_mul_left_q {α : Type} (l : List α) (f : α → ℚ) (c : ℚ) :
    (l.map fun x => c * f x).sum = c * (l.map f).sum := by
  induction l with
  | nil => simp
  | cons a l ih => simp [ih, mul_add]

theorem sum_map_const_q {α : Type} (l : List α) (c : ℚ) :
    (l.map fun _ => c).sum = (l.length : ℚ) * c := by
  induction l with
  | nil => simp
  | cons a l ih => simp [ih, add_mul]; ring

theorem sumAmounts_filter_partition (p : ExpenseRecord → Bool)
    (l : List ExpenseRecord) :
    sumAmounts (l.filter p) + sumAmounts (l.filter (fun r => !(p r))) =
      sumAmounts l := by
  induction l with
  | nil => simp [sumAmounts]
  | cons a l ih =>
    by_cases h : p a = true
    · simp [sumAmounts, List.filter_cons, h] at ih ⊢
      linarith
    · simp only [Bool.not_eq_true] at h
      simp [sumAmounts, List.filter_cons, h] at ih ⊢
      linarith

end Aeide

namespace Aeide

/-! ### First allocator claims -/

/-- **C2.** `final_after_post[m]` is exactly
`part_after_ante_split[m] - total_post[m]`, never clamped. -/
theorem final_after_post_eq (A : AllocIn) (m : String) :
    (A.resultFor m).final_after_post =
      (A.resultFor m).part_after_ante_split - (A.resultFor m).total_post := rfl

/-- **C4.** Gain conservation: for non-negative gain,
`covered_ante + remaining_gain = gain` exactly. -/
theorem covered_add_remaining (A : AllocIn) (h : 0 ≤ A.gain) :
    A.covered_ante + A.remaining_gain = A.gain := by
  have hmin : A.covered_ante ≤ A.gain := min_le_left _ _
  have : A.remaining_gain = A.gain - A.covered_ante :=
    max_eq_left (by linarith)
  rw [this]; ring

/-- A concrete invocation with a single ANTE record of negative amount
(a refund) and zero gain. -/
def negRefundIn : AllocIn :=
  ⟨[⟨"t", "s", "n", -1, "A", "", ""⟩], ["A"], .type, ["t"], (fun _ => 1), 0⟩

/-- **C1 (amended).** `covered_ante` is always `min(gain, total_ante)`;
when `total_ante = 0` and the gain is non-negative this yields `0`, but a
negative `total_ante` yields a negative `covered_ante` (there is no
`total_ante <= 0` guard in the code). -/
theorem covered_ante_spec (A : AllocIn) :
    A.covered_ante = min A.gain A.total_ante ∧
      (0 ≤ A.gain → A.total_ante = 0 → A.covered_ante = 0) := by
  refine ⟨rfl, fun hg ht => ?_⟩
  rw [AllocIn.covered_ante, ht]
  exact min_eq_right hg

/-- Witness for `covered_ante_spec`: with no records, `total_ante = 0`
and a gain of 40 gives `covered_ante = 0`. -/
theorem covered_ante_spec_witness :
    (AllocIn.covered_ante ⟨[], ["A"], .type, [], (fun _ => 1), 40⟩ : ℚ) = 0 :=
  (covered_ante_spec ⟨[], ["A"], .type, [], (fun _ => 1), 40⟩).2
    (by norm_num) (by decide)

/-- **C1 counterexample.** At `negRefundIn`, `total_ante = -1 ≤ 0` yet the
code computes `covered_ante = min(0, -1) = -1`, not `0`. -/
theorem covered_ante_neg_counterexample :
    negRefundIn.total_ante ≤ 0 ∧ negRefundIn.covered_ante = -1 ∧
      negRefundIn.covered_ante ≠ 0 := by
  norm_num [negRefundIn, AllocIn.total_ante, AllocIn.covered_ante, anteRecs,
    sumAmounts, isAnte, keyOf, min_def]

/-- **C3 (amended).** With a non-empty ledger, zero gain and a
non-negative `total_ante`: `covered_ante = 0`, `remaining_gain = 0`,
every member's `part_after_ante_split = 0` and
`final_after_post[m] = -total_post[m]`.  (A negative `total_ante` breaks
this, see the counterexample.) -/
theorem zero_gain_settlement (A : AllocIn) (hne : A.records ≠ [])
    (hg : A.gain = 0) (hta : 0 ≤ A.total_ante) :
    A.covered_ante = 0 ∧ A.remaining_gain = 0 ∧
      (∀ m, (A.resultFor m).part_after_ante_split = 0) ∧
      (∀ m, (A.resultFor m).final_after_post = -(A.resultFor m).total_post) := by
  have hc : A.covered_ante = 0 := by
    rw [AllocIn.covered_ante, hg]
    exact min_eq_left hta
  have hr : A.remaining_gain = 0 := by
    rw [AllocIn.remaining_gain, hc, hg]
    simp
  refine ⟨hc, hr, fun m => ?_, fun m => ?_⟩
  · show A.part_after_ante m = 0
    rw [AllocIn.part_after_ante, hr, zero_mul]
  · show A.part_after_ante m - A.postByMember m = -(A.postByMember m)
    rw [AllocIn.part_after_ante, hr, zero_mul, zero_sub]

/-- Witness for `zero_gain_settlement` at a concrete non-empty ledger
with zero gain. -/
theorem zero_gain_settlement_witness :
    (AllocIn.resultFor ⟨[⟨"t", "s", "n", 7, "A", "", ""⟩],
        ["A"], .type, [], (fun _ => 1), 0⟩ "A").final_after_post =
      -((AllocIn.resultFor ⟨[⟨"t", "s", "n", 7, "A", "", ""⟩],
        ["A"], .type, [], (fun _ => 1), 0⟩ "A").total_post) :=
  (zero_gain_settlement ⟨[⟨"t", "s", "n", 7, "A", "", ""⟩],
      ["A"], .type, [], (fun _ => 1), 0⟩
    (by decide) (by decide) (by decide)).2.2.2 "A"

/-- **C3 counterexample.** At `negRefundIn` the ledger is non-empty and
the gain is zero, yet `remaining_gain = 1 ≠ 0` and member A's
`part_after_ante_split = 1 ≠ 0`. -/
theorem zero_gain_neg_counterexample :
    negRefundIn.records ≠ [] ∧ negRefundIn.gain = 0 ∧
      negRefundIn.remaining_gain = 1 ∧
      (negRefundIn.resultFor "A").part_after_ante_split = 1 := by
  refine ⟨by decide, rfl, ?_, ?_⟩ <;>
    norm_num [negRefundIn, AllocIn.resultFor, AllocIn.part_after_ante,
      AllocIn.remaining_gain, AllocIn.covered_ante, AllocIn.total_ante,
      AllocIn.usedWeights, AllocIn.wsum, anteRecs, sumAmounts, isAnte, keyOf,
      min_def, max_def]

/-- Witness for `covered_add_remaining` at a concrete input. -/
theorem covered_add_remaining_witness :
    (0:ℚ) ≤ (40:ℚ) ∧
      (AllocIn.covered_ante ⟨[⟨"asso", "s", "n", 50, "B", "", ""⟩],
          ["A", "B"], .type, ["asso"], (fun _ => 1/2), 40⟩ : ℚ) +
        (AllocIn.remaining_gain ⟨[⟨"asso", "s", "n", 50, "B", "", ""⟩],
          ["A", "B"], .type, ["asso"], (fun _ => 1/2), 40⟩ : ℚ) = 40 :=
  ⟨by norm_num,
    covered_add_remaining
      ⟨[⟨"asso", "s", "n", 50, "B", "", ""⟩],
        ["A", "B"], .type, ["asso"], (fun _ => 1/2), 40⟩ (by norm_num)⟩

end Aeide

namespace Aeide

/-! ### C9: allocated_ante is computed but not part of the results -/

/-- The concrete scenario of the spec: a 100 € perso record of A, a 50 €
asso record of B, selection `{asso}` at `type` granularity, weights
`A = B = 1/2`, gain 40. -/
def scenarioIn : AllocIn :=
  ⟨[⟨"perso", "s", "p", 100, "A", "", ""⟩, ⟨"asso", "s", "q", 50, "B", "", ""⟩],
    ["A", "B"], .type, ["asso"],
    (fun m => if m = "A" then 1/2 else if m = "B" then 1/2 else 0), 40⟩

/-- **C9 (amended).** `allocated_ante[m]` is
`covered_ante * ante_member[m] / sum(ante_member.values())` when that sum
is positive and `0` otherwise; it is computed, but it is not one of the
fields of the per-member result, and `final_after_post` is
`remaining_gain * weight[m] - total_post[m]`, which does not involve it. -/
theorem allocated_ante_spec (A : AllocIn) (m : String) :
    (0 < A.total_ante_contrib →
      A.allocated_ante m =
        A.covered_ante * (A.anteByMember m / A.total_ante_contrib)) ∧
      (¬0 < A.total_ante_contrib → A.allocated_ante m = 0) ∧
      (A.resultFor m).final_after_post =
        A.remaining_gain * A.usedWeights m - A.postByMember m := by
  refine ⟨fun h => ?_, fun h => ?_, rfl⟩
  · rw [AllocIn.allocated_ante, if_pos h]
  · rw [AllocIn.allocated_ante, if_neg h]

/-- Witness for `allocated_ante_spec` at the concrete scenario: the ANTE
contribution sum is 50 > 0 and B's allocation follows the formula. -/
theorem allocated_ante_spec_witness :
    AllocIn.allocated_ante scenarioIn "B" =
      AllocIn.covered_ante scenarioIn *
        (AllocIn.anteByMember scenarioIn "B" /
          AllocIn.total_ante_contrib scenarioIn) :=
  (allocated_ante_spec scenarioIn "B").1 (by
    have hk : scenarioIn.anteKeys = ["A", "B"] := by
      simp [AllocIn.anteKeys, jsKeys, scenarioIn, anteRecs, isAnte, keyOf]
    rw [AllocIn.total_ante_contrib, hk]
    simp [AllocIn.anteByMember, anteRecs, sumAmounts, isAnte, keyOf, scenarioIn])

/-- **C9 counterexample.** At the concrete scenario the code computes
`allocated_ante["B"] = 40`, yet the result row for B is
`(50, 0, 50, 0, 0)`: the value 40 appears in none of the five exposed
fields, so `allocated_ante` is not exposed in the result. -/
theorem allocated_ante_not_exposed_counterexample :
    AllocIn.allocated_ante scenarioIn "B" = 40 ∧
      AllocIn.resultFor scenarioIn "B" =
        ⟨50, 0, 50, 0, 0⟩ := by
  have hante : scenarioIn.anteByMember "B" = 50 := by
    simp [AllocIn.anteByMember, anteRecs, sumAmounts, isAnte, keyOf, scenarioIn]
  have hpost : scenarioIn.postByMember "B" = 0 := by
    simp [AllocIn.postByMember, postRecs, sumAmounts, isAnte, keyOf, scenarioIn]
  have hcov : scenarioIn.covered_ante = 40 := by
    simp [AllocIn.covered_ante, AllocIn.total_ante, anteRecs, sumAmounts,
      isAnte, keyOf, scenarioIn, min_def]
    norm_num
  have hrem : scenarioIn.remaining_gain = 0 := by
    rw [AllocIn.remaining_gain, hcov]
    norm_num [scenarioIn]
  have hcontrib : scenarioIn.total_ante_contrib = 50 := by
    have hk : scenarioIn.anteKeys = ["A", "B"] := by
      simp [AllocIn.anteKeys, jsKeys, scenarioIn, anteRecs, isAnte, keyOf]
    rw [AllocIn.total_ante_contrib, hk]
    simp [AllocIn.anteByMember, anteRecs, sumAmounts, isAnte, keyOf, scenarioIn]
  constructor
  · rw [AllocIn.allocated_ante, if_pos (by rw [hcontrib]; norm_num),
      hcontrib, hante, hcov]
    norm_num
  · rw [AllocIn.resultFor, MemberResult.mk.injEq]
    refine ⟨hante, hpost, by rw [hante, hpost]; norm_num, ?_, ?_⟩
    · rw [AllocIn.part_after_ante, hrem]; ring
    · rw [AllocIn.part_after_ante, hrem, hpost]; ring

/-! ### C10: the used weights sum to 1 when there is at least one member -/

/-- **C10 (amended).** Whenever `MEMBERS` is non-empty, the weight vector
actually used sums to exactly 1 (normalized branch or uniform fallback),
and hence the members' `part_after_ante_split` values sum to
`remaining_gain`.  (With an empty member list both sums are 0, see the
counterexample.) -/
theorem used_weights_sum_one (A : AllocIn) (hne : A.members ≠ []) :
    (A.members.map A.usedWeights).sum = 1 ∧
      (A.members.map A.part_after_ante).sum = A.remaining_gain := by
  have hlen : (A.members.length : ℚ) ≠ 0 := by
    simpa using fun h => hne (List.length_eq_zero.mp h)
  have hw : (A.members.map A.usedWeights).sum = 1 := by
    by_cases h : A.wsum ≤ 0
    · have : A.members.map A.usedWeights =
          A.members.map fun _ => 1 / (A.members.length : ℚ) :=
        List.map_congr_left fun a _ => by simp [AllocIn.usedWeights, h]
      rw [this, sum_map_const_q]
      field_simp
    · have hw0 : A.wsum ≠ 0 := fun h0 => h (le_of_eq h0)
      have : A.members.map A.usedWeights =
          A.members.map fun m => A.rawW m * A.wsum⁻¹ :=
        List.map_congr_left fun a _ => by
          simp [AllocIn.usedWeights, h, div_eq_mul_inv]
      rw [this, sum_map_mul_right_q]
      rw [show (A.members.map A.rawW).sum = A.wsum from rfl]
      field_simp
  refine ⟨hw, ?_⟩
  have : A.members.map A.part_after_ante =
      A.members.map fun m => A.remaining_gain * A.usedWeights m := rfl
  rw [this, sum_map_mul_left_q, hw, mul_one]

/-- Witness for `used_weights_sum_one` at the concrete scenario. -/
theorem used_weights_sum_one_witness :
    (scenarioIn.members.map scenarioIn.usedWeights).sum = 1 :=
  (used_weights_sum_one scenarioIn (by decide)).1

/-- An invocation with no known members at all (empty ledger, empty
`MEMBERS`) and gain 1. -/
def noMembersIn : AllocIn := ⟨[], [], .type, [], (fun _ => 0), 1⟩

/-- **C10 counterexample.** With no members the fallback loop does not
run: the used weights sum to 0, not 1, and the parts sum to 0 while
`remaining_gain = 1`. -/
theorem used_weights_empty_counterexample :
    (noMembersIn.members.map noMembersIn.usedWeights).sum = 0 ∧
      (0 : ℚ) ≠ 1 ∧
      (noMembersIn.members.map noMembersIn.part_after_ante).sum = 0 ∧
      noMembersIn.remaining_gain = 1 := by
  refine ⟨by simp [noMembersIn], by norm_num, by simp [noMembersIn], ?_⟩
  norm_num [noMembersIn, AllocIn.remaining_gain, AllocIn.covered_ante,
    AllocIn.total_ante, anteRecs, sumAmounts, min_def, max_def]

end Aeide

namespace Aeide

/-! ### C5: the ANTE/POST classification is a total partition -/

theorem mem_jsKeys_aux (l acc : List String) (x : String) :
    x ∈ l.foldl (fun a k => if k ∈ a then a else a ++ [k]) acc ↔
      x ∈ acc ∨ x ∈ l := by
  induction l generalizing acc with
  | nil => simp
  | cons a l ih =>
    rw [List.foldl_cons, ih]
    by_cases h : a ∈ acc
    · simp only [if_pos h, List.mem_cons]
      constructor
      · rintro (hx | hx)
        · exact Or.inl hx
        · exact Or.inr (Or.inr hx)
      · rintro (hx | rfl | hx)
        · exact Or.inl hx
        · exact Or.inl h
        · exact Or.inr hx
    · simp only [if_neg h, List.mem_append, List.mem_singleton, List.mem_cons]
      tauto

theorem mem_jsKeys (l : List String) (x : String) :
    x ∈ jsKeys l ↔ x ∈ l := by
  rw [jsKeys, mem_jsKeys_aux]
  simp

theorem nodup_jsKeys_aux (l acc : List String) (hacc : acc.Nodup) :
    (l.foldl (fun a k => if k ∈ a then a else a ++ [k]) acc).Nodup := by
  induction l generalizing acc with
  | nil => simpa
  | cons a l ih =>
    rw [List.foldl_cons]
    by_cases h : a ∈ acc
    · rw [if_pos h]; exact ih acc hacc
    · rw [if_neg h]
      exact ih _ (by simp [List.nodup_append, hacc, h])

theorem nodup_jsKeys (l : List String) : (jsKeys l).Nodup :=
  nodup_jsKeys_aux l [] List.nodup_nil

/-- Summing the per-member fibers of a record list over a duplicate-free
key list that covers every member present gives the total sum. -/
theorem sum_member_fibers (K : List String) (l : List ExpenseRecord)
    (hnd : K.Nodup) (hcov : ∀ r ∈ l, r.member ∈ K) :
    (K.map fun k => sumAmounts (l.filter fun r => r.member == k)).sum =
      sumAmounts l := by
  induction K generalizing l with
  | nil =>
    have : l = [] := List.eq_nil_iff_forall_not_mem.mpr fun r hr =>
      (List.not_mem_nil r.member) (hcov r hr)
    simp [this, sumAmounts]
  | cons k K ih =>
    have hk : k ∉ K := (List.nodup_cons.mp hnd).1
    have hK : K.Nodup := (List.nodup_cons.mp hnd).2
    rw [List.map_cons, List.sum_cons]
    have hfib : ∀ k' ∈ K,
        (l.filter fun r => !(r.member == k)).filter (fun r => r.member == k') =
          l.filter (fun r => r.member == k') := by
      intro k' hk'
      rw [List.filter_filter]
      apply List.filter_congr
      intro r _
      by_cases h : r.member = k'
      · have hkk : ¬k' = k := fun he => hk (he ▸ hk')
        simp [h, hkk]
      · simp [h]
    have hmap : K.map (fun k' => sumAmounts (l.filter fun r => r.member == k')) =
        K.map (fun k' => sumAmounts
          ((l.filter fun r => !(r.member == k)).filter fun r => r.member == k')) :=
      List.map_congr_left fun k' hk' => by rw [hfib k' hk']
    rw [hmap, ih (l.filter fun r => !(r.member == k)) hK ?_]
    · exact sumAmounts_filter_partition (fun r => r.member == k) l
    · intro r hr
      obtain ⟨hrl, hrk⟩ := List.mem_filter.mp hr
      rcases List.mem_cons.mp (hcov r hrl) with h | h
      · simp [h] at hrk
      · exact h

theorem total_ante_contrib_eq (A : AllocIn) :
    A.total_ante_contrib = A.total_ante := by
  rw [AllocIn.total_ante_contrib, AllocIn.total_ante]
  exact sum_member_fibers A.anteKeys _ (nodup_jsKeys _) fun r hr =>
    (mem_jsKeys _ _).mpr (List.mem_append.mpr
      (Or.inr (List.mem_map.mpr ⟨r, hr, rfl⟩)))

theorem total_post_contrib_eq (A : AllocIn) :
    A.total_post_contrib = A.total_post := by
  rw [AllocIn.total_post_contrib, AllocIn.total_post]
  exact sum_member_fibers A.postKeys _ (nodup_jsKeys _) fun r hr =>
    (mem_jsKeys _ _).mpr (List.mem_append.mpr
      (Or.inr (List.mem_map.mpr ⟨r, hr, rfl⟩)))

/-- **C5.** The ANTE/POST classification at any granularity is a total
partition of the record list (every record lands in exactly one side),
and the per-member ANTE totals plus the per-member POST totals sum to
the sum of all amounts — exactly, hence within the claimed `1e-9`. -/
theorem partition_totality (A : AllocIn) :
    List.Perm
        (anteRecs A.gran A.sel A.records ++ postRecs A.gran A.sel A.records)
        A.records ∧
      (∀ r, ¬(r ∈ anteRecs A.gran A.sel A.records ∧
        r ∈ postRecs A.gran A.sel A.records)) ∧
      A.total_ante_contrib + A.total_post_contrib = sumAmounts A.records ∧
      |A.total_ante_contrib + A.total_post_contrib - sumAmounts A.records| ≤
        1 / 1000000000 := by
  have hsum : A.total_ante_contrib + A.total_post_contrib =
      sumAmounts A.records := by
    rw [total_ante_contrib_eq, total_post_contrib_eq, AllocIn.total_ante,
      AllocIn.total_post, anteRecs, postRecs]
    exact sumAmounts_filter_partition _ _
  refine ⟨List.filter_append_perm _ _, fun r hap => ?_, hsum, ?_⟩
  · obtain ⟨ha, hp⟩ := hap
    have h1 := (List.mem_filter.mp ha).2
    have h2 := (List.mem_filter.mp hp).2
    rw [h1] at h2
    simp at h2
  · rw [hsum]
    norm_num

end Aeide

namespace Aeide

/-! ### C6: uniform fallback and guarded divisions -/

/-- Division as a fallible operation: `none` models the division fault /
`NaN` / `Infinity` that a zero denominator would produce. -/
def cdiv (a b : ℚ) : Option ℚ :=
  if b = 0 then none else some (a / b)

/-- Threads fallible per-member computations through a member list. -/
def optTraverse (f : String → Option (String × ℚ)) :
    List String → Option (List (String × ℚ))
  | [] => some []
  | m :: ms =>
    match f m, optTraverse f ms with
    | some v, some vs => some (v :: vs)
    | _, _ => none

theorem optTraverse_isSome (f : String → Option (String × ℚ))
    (l : List String) (h : ∀ m ∈ l, (f m).isSome) :
    (optTraverse f l).isSome := by
  induction l with
  | nil => rfl
  | cons m ms ih =>
    have h1 : (f m).isSome := h m (List.mem_cons_self m ms)
    have h2 := ih fun x hx => h x (List.mem_cons_of_mem m hx)
    rw [optTraverse]
    obtain ⟨v, hv⟩ := Option.isSome_iff_exists.mp h1
    obtain ⟨vs, hvs⟩ := Option.isSome_iff_exists.mp h2
    rw [hv, hvs]
    rfl

/-- The weight computation with every division checked: the uniform
branch divides by `MEMBERS.length`, the normalizing branch by `wsum`. -/
def checkedWeights (A : AllocIn) : Option (List (String × ℚ)) :=
  if A.wsum ≤ 0 then
    optTraverse (fun m =>
      (cdiv 1 (A.members.length : ℚ)).map (fun v => (m, v))) A.members
  else
    optTraverse (fun m =>
      (cdiv (A.rawW m) A.wsum).map (fun v => (m, v))) A.members

/-- The `allocated_ante` computation with its division by
`total_ante_contrib` checked (the division is performed only inside the
`total_ante_contrib > 0` branch). -/
def checkedAllocatedAnte (A : AllocIn) : Option (List (String × ℚ)) :=
  if 0 < A.total_ante_contrib then
    optTraverse (fun m =>
      (cdiv (A.anteByMember m) A.total_ante_contrib).map
        (fun q => (m, A.covered_ante * q))) A.members
  else some (A.members.map (fun m => (m, 0)))

/-- **C6.** If the raw weights sum to ≤ 0 the Allocator uses the uniform
weight `1/n` for each of the `n` known members, and neither the division
by the weight sum nor the division by the total ANTE contribution ever
divides by zero (both checked pipelines always succeed). -/
theorem uniform_fallback_no_div_by_zero (A : AllocIn) :
    (A.wsum ≤ 0 →
        ∀ m ∈ A.members, A.usedWeights m = 1 / (A.members.length : ℚ)) ∧
      (checkedWeights A).isSome ∧ (checkedAllocatedAnte A).isSome := by
  refine ⟨fun h m _ => by rw [AllocIn.usedWeights, if_pos h], ?_, ?_⟩
  · rw [checkedWeights]
    by_cases h : A.wsum ≤ 0
    · rw [if_pos h]
      refine optTraverse_isSome _ _ fun m hm => ?_
      have hn : (A.members.length : ℚ) ≠ 0 := by
        have : A.members ≠ [] := List.ne_nil_of_mem hm
        simpa using fun h0 => this (List.length_eq_zero.mp h0)
      rw [cdiv, if_neg hn]
      rfl
    · rw [if_neg h]
      refine optTraverse_isSome _ _ fun m _ => ?_
      have hw : A.wsum ≠ 0 := fun h0 => h (le_of_eq h0)
      rw [cdiv, if_neg hw]
      rfl
  · rw [checkedAllocatedAnte]
    by_cases h : 0 < A.total_ante_contrib
    · rw [if_pos h]
      refine optTraverse_isSome _ _ fun m _ => ?_
      rw [cdiv, if_neg (ne_of_gt h)]
      rfl
    · rw [if_neg h]
      rfl

/-- Witness for `uniform_fallback_no_div_by_zero`: with all raw weights
zero and two members, each used weight is the uniform `1/2`. -/
theorem uniform_fallback_witness :
    AllocIn.usedWeights ⟨[], ["A", "B"], .type, [], (fun _ => 0), 10⟩ "A" =
      1 / ((AllocIn.members
        ⟨[], ["A", "B"], .type, [], (fun _ => 0), 10⟩).length : ℚ) :=
  (uniform_fallback_no_div_by_zero
      ⟨[], ["A", "B"], .type, [], (fun _ => 0), 10⟩).1
    (by simp [AllocIn.wsum]) "A" (by decide)

end Aeide

namespace Aeide

/-! ### C7: ordering of the main table (`build_main_table`) -/

/-- `r.spent_subtype || '(no subtype)'`: the row key inside a type
group. -/
def rowKeyOf (r : ExpenseRecord) : String :=
  if r.spent_subtype = "" then "(no subtype)" else r.spent_subtype

/-- `Object.keys(byType)`: the distinct `spent_type` values in first
occurrence order. -/
def typeKeys (rs : List ExpenseRecord) : List String :=
  jsKeys (rs.map ExpenseRecord.spent_type)

/-- The boolean `a ≼ b` of the JS comparator
`(a,b)=>{ if (a.toLowerCase()==='asso') return -1; ... return
a.localeCompare(b); }` (comparator value ≤ 0), with `localeCompare`
modelled as lexicographic string order. -/
def typeLeB (a b : String) : Bool :=
  if a.toLower = "asso" then true
  else if b.toLower = "asso" then false
  else if a.toLower = "perso" then true
  else if b.toLower = "perso" then false
  else decide (a ≤ b)

/-- The comparator as a relation. -/
def typeLE (a b : String) : Prop := typeLeB a b = true

instance : DecidableRel typeLE :=
  fun _ _ => inferInstanceAs (Decidable (_ = true))

/-- The pinned rank of a category name: `asso` first, `perso` second,
everything else after. -/
def rankOf (s : String) : ℕ :=
  if s.toLower = "asso" then 0 else if s.toLower = "perso" then 1 else 2

theorem typeLE_iff (a b : String) :
    typeLE a b ↔
      rankOf a < rankOf b ∨
        (rankOf a = rankOf b ∧ (rankOf a ≠ 2 ∨ a ≤ b)) := by
  unfold typeLE typeLeB rankOf
  split_ifs <;> simp_all

instance : IsTotal String typeLE := by
  refine ⟨fun a b => ?_⟩
  rw [typeLE_iff, typeLE_iff]
  rcases Nat.lt_trichotomy (rankOf a) (rankOf b) with h | h | h
  · exact Or.inl (Or.inl h)
  · by_cases h2 : rankOf a = 2
    · rcases le_total a b with hle | hle
      · exact Or.inl (Or.inr ⟨h, Or.inr hle⟩)
      · exact Or.inr (Or.inr ⟨h.symm, Or.inr hle⟩)
    · exact Or.inl (Or.inr ⟨h, Or.inl h2⟩)
  · exact Or.inr (Or.inl h)

instance : IsTrans String typeLE := by
  refine ⟨fun a b c hab hbc => ?_⟩
  rw [typeLE_iff] at hab hbc ⊢
  rcases hab with h | ⟨he, h2⟩
  · rcases hbc with h' | ⟨he', _⟩
    · exact Or.inl (h.trans h')
    · exact Or.inl (he' ▸ h)
  · rcases hbc with h' | ⟨he', h2'⟩
    · exact Or.inl (he ▸ h')
    · refine Or.inr ⟨he.trans he', ?_⟩
      rcases h2 with h2 | hle
      · exact Or.inl h2
      · rcases h2' with h2' | hle'
        · exact Or.inl (he ▸ h2')
        · exact Or.inr (hle.trans hle')

/-- One row of a type group in the main table (`byType[t][rowKey]`):
the row key, its type, the per-member totals and the row total. -/
structure RowEntry where
  rowKey : String
  spent_type : String
  memberTotal : String → ℚ
  total : ℚ

/-- The records of one type group. -/
def groupRecs (t : String) (rs : List ExpenseRecord) : List ExpenseRecord :=
  rs.filter (fun r => r.spent_type == t)

/-- The accumulated row object for key `k` inside type group `t`. -/
def rowEntry (t : String) (rs : List ExpenseRecord) (k : String) : RowEntry :=
  { rowKey := k
    spent_type := t
    memberTotal := fun m => sumAmounts
      (((groupRecs t rs).filter (fun r => rowKeyOf r == k)).filter
        (fun r => r.member == m))
    total := sumAmounts ((groupRecs t rs).filter (fun r => rowKeyOf r == k)) }

/-- `Object.keys(byType[t])`: the distinct row keys of a type group in
first occurrence order. -/
def subKeys (t : String) (rs : List ExpenseRecord) : List String :=
  jsKeys ((groupRecs t rs).map rowKeyOf)

/-- `Object.values(byType[t])`: the row objects of a type group. -/
def rowsOf (t : String) (rs : List ExpenseRecord) : List RowEntry :=
  (subKeys t rs).map (rowEntry t rs)

/-- The `(a,b)=>b.total-a.total` comparator as a relation: `x ≼ y` iff
`y.total ≤ x.total` (descending totals). -/
def rowGE (x y : RowEntry) : Prop := y.total ≤ x.total

instance : DecidableRel rowGE :=
  fun x y => inferInstanceAs (Decidable (y.total ≤ x.total))

instance : IsTotal RowEntry rowGE :=
  ⟨fun x y => (le_total y.total x.total).imp (fun h => h) (fun h => h)⟩

instance : IsTrans RowEntry rowGE :=
  ⟨fun _ _ _ hxy hyz => le_trans hyz hxy⟩

/-- The category groups of the main table in display order. -/
def orderedTypes (rs : List ExpenseRecord) : List String :=
  List.insertionSort typeLE (typeKeys rs)

/-- The rows of a type group in display order. -/
def sortedRows (t : String) (rs : List ExpenseRecord) : List RowEntry :=
  List.insertionSort rowGE (rowsOf t rs)

/-- **C7.** The main table shows every category group exactly once, with
any group named `asso` (case-insensitively) first, then any group named
`perso`, then the remaining groups in lexicographic order; inside each
category group the subcategory rows are every group row exactly once,
ordered by descending row total. -/
theorem main_table_ordering (rs : List ExpenseRecord) :
    List.Perm (orderedTypes rs) (typeKeys rs) ∧
      (orderedTypes rs).Pairwise (fun a b =>
        rankOf a ≤ rankOf b ∧ (rankOf a = 2 → rankOf b = 2 → a ≤ b)) ∧
      ∀ t, List.Perm (sortedRows t rs) (rowsOf t rs) ∧
        (sortedRows t rs).Pairwise (fun x y => y.total ≤ x.total) := by
  refine ⟨List.perm_insertionSort _ _, ?_,
    fun t => ⟨List.perm_insertionSort _ _, ?_⟩⟩
  · have hs : (orderedTypes rs).Pairwise typeLE :=
      List.sorted_insertionSort typeLE (typeKeys rs)
    refine hs.imp ?_
    intro a b hab
    rw [typeLE_iff] at hab
    rcases hab with h | ⟨he, h2⟩
    · exact ⟨le_of_lt h, fun ha hb => by omega⟩
    · refine ⟨le_of_eq he, fun ha _ => ?_⟩
      rcases h2 with h2 | hle
      · exact absurd ha h2
      · exact hle
  · have hs : (sortedRows t rs).Pairwise rowGE :=
      List.sorted_insertionSort rowGE (rowsOf t rs)
    exact hs.imp (fun h => h)

end Aeide

namespace Aeide

/-! ### C8: partial sums of the subtype detail view (`show_subtype_detail`) -/

/-- `r.spent_name || '(no name)'`: the row key of the detail table. -/
def nameKeyOf (r : ExpenseRecord) : String :=
  if r.spent_name = "" then "(no name)" else r.spent_name

/-- `allRecs = DATA.records.filter(r => r.spent_subtype === subtype)`. -/
def detailRecs (rs : List ExpenseRecord) (st : String) : List ExpenseRecord :=
  rs.filter (fun r => r.spent_subtype == st)

/-- The records accumulated into one per-name detail row. -/
def rowRecs (rs : List ExpenseRecord) (st n : String) : List ExpenseRecord :=
  (detailRecs rs st).filter (fun r => nameKeyOf r == n)

/-- The row's grand total (`rowsMap[name].total`). -/
def rowTotal (rs : List ExpenseRecord) (st n : String) : ℚ :=
  sumAmounts (rowRecs rs st n)

/-- `parts.asso`: accumulated when `r.spent_type === 'asso'`. -/
def rowAsso (rs : List ExpenseRecord) (st n : String) : ℚ :=
  sumAmounts ((rowRecs rs st n).filter (fun r => r.spent_type == "asso"))

/-- `parts.perso`: accumulated in the `else` branch, i.e. for every
record whose type is **not** `asso`. -/
def rowPerso (rs : List ExpenseRecord) (st n : String) : ℚ :=
  sumAmounts ((rowRecs rs st n).filter (fun r => !(r.spent_type == "asso")))

/-- Modelled from the spec: the perso partial sum as the claim reads it,
restricted to records whose `category == "perso"` exactly. -/
def specPersoPart (rs : List ExpenseRecord) (st n : String) : ℚ :=
  sumAmounts ((rowRecs rs st n).filter (fun r => r.spent_type == "perso"))

/-- Modelled from the spec: the amounts of the row's records whose
category is neither `asso` nor `perso`. -/
def specOtherPart (rs : List ExpenseRecord) (st n : String) : ℚ :=
  sumAmounts (((rowRecs rs st n).filter (fun r => !(r.spent_type == "asso"))).filter
    (fun r => !(r.spent_type == "perso")))

/-- **C8 (amended).** In each per-name detail row the asso partial sum
covers exactly the `category == "asso"` records, but the perso partial
sum covers every record whose category is **not** `asso` — the true
perso records plus all other-category records — and the two partial sums
add up to the row's grand total. -/
theorem detail_partial_sums (rs : List ExpenseRecord) (st n : String) :
    rowAsso rs st n + rowPerso rs st n = rowTotal rs st n ∧
      rowPerso rs st n = specPersoPart rs st n + specOtherPart rs st n := by
  constructor
  · exact sumAmounts_filter_partition _ _
  · have hpart := sumAmounts_filter_partition
      (fun r => r.spent_type == "perso")
      ((rowRecs rs st n).filter (fun r => !(r.spent_type == "asso")))
    have hleft : ((rowRecs rs st n).filter
        (fun r => !(r.spent_type == "asso"))).filter
          (fun r => r.spent_type == "perso") =
        (rowRecs rs st n).filter (fun r => r.spent_type == "perso") := by
      rw [List.filter_filter]
      apply List.filter_congr
      intro r _
      by_cases h : r.spent_type = "perso"
      · simp [h]
      · simp [h]
    rw [rowPerso, specPersoPart, specOtherPart, ← hpart, hleft]

/-- A one-record ledger whose category is neither `asso` nor `perso`. -/
def otherCatRecs : List ExpenseRecord := [⟨"misc", "s", "n", 5, "A", "", ""⟩]

/-- **C8 counterexample.** With a single `misc`-category record the code
puts its 5 € into the perso partial sum, whereas the claim requires the
perso partial to cover only `category == "perso"` records (which would
give 0). -/
theorem detail_perso_counterexample :
    rowPerso otherCatRecs "s" "n" = 5 ∧
      specPersoPart otherCatRecs "s" "n" = 0 ∧
      rowPerso otherCatRecs "s" "n" ≠ specPersoPart otherCatRecs "s" "n" := by
  have h1 : rowPerso otherCatRecs "s" "n" = 5 := by
    rw [rowPerso, rowRecs, detailRecs, otherCatRecs]
    simp [nameKeyOf, sumAmounts]
  have h2 : specPersoPart otherCatRecs "s" "n" = 0 := by
    rw [specPersoPart, rowRecs, detailRecs, otherCatRecs]
    simp [nameKeyOf, sumAmounts]
  refine ⟨h1, h2, ?_⟩
  rw [h1, h2]
  norm_num

end Aeide
